import Mathlib

/-!
Shallow embedding of src/RNS/src/SDCAmr.cpp, the multilevel SDC + AMR
time-integration controller.

External collaborators (the BoxLib mesh provider, the SDCLib step library and
the RNS physics level) are modelled as oracle functions supplied to each
operation; the controller logic itself (timeStep, rebuild_mlsdc, regrid, the
constructor checks and the restriction transfer callback) is translated from
the source.  Debug-only NAN poisoning and BL_ASSERT checks, verbose printing
and the StateData time bookkeeping are I/O or external state and are not part
of the embedded state.
-/

/-- A MultiFab (one distributed field) abstracted to its bitwise contents:
the valid-region data and the ghost-region data.  MultiFab::Copy with the
destination grow cells, as used throughout SDCAmr.cpp, copies both parts. -/
structure MultiFab where
  valid : Int
  ghost : Int
deriving DecidableEq, Repr

def defaultFab : MultiFab := { valid := 0, ghost := 0 }

/-- The boundary-fill modes of RNS::fill_boundary that SDCAmr.cpp selects. -/
inductive FillMode
| set_PhysBoundary
| use_FillBoundary
| use_FillCoarsePatch
deriving DecidableEq, Repr

/-- Kind tag carried by an sdc_state during a transfer (SDCLib).  SDC_SOLUTION
marks an actual solution state; the other kinds carry correction-type data
(function evaluations, tau corrections). -/
inductive sdc_kind
| SDC_SOLUTION
| SDC_FEVAL
| SDC_TAU
deriving DecidableEq, Repr

/-- Mesh-provider operations available to mlsdc_amr_restrict: the two levels
fill_boundary hooks (at the transfer time, with RNS::use_FillBoundary) and the
conservative average-down. -/
structure RestrictEnv (α : Type) where
  fillF : α → α
  fillG : α → α
  avgDown : α → α → α

/-- The mesh-provider calls mlsdc_amr_restrict can make, in order. -/
inductive RestrictCall
| fillFine
| avgDownCall
| fillCoarse
deriving DecidableEq, Repr

/-- mlsdc_amr_restrict from SDCAmr.cpp: boundary-fill of the fine field if the
state is a solution, unconditional average-down onto the coarse field, then
boundary-fill of the coarse field if the state is a solution.  Returns the
final (UF, UG) pair and the list of mesh-provider calls made, in order. -/
def mlsdc_amr_restrict {α : Type} (env : RestrictEnv α) (kind : sdc_kind)
    (UF UG : α) : (α × α) × List RestrictCall :=
  let p1 := if kind = sdc_kind.SDC_SOLUTION
            then (env.fillF UF, [RestrictCall.fillFine]) else (UF, [])
  let UG1 := env.avgDown UG p1.1
  let p2 := if kind = sdc_kind.SDC_SOLUTION
            then (env.fillG UG1, [RestrictCall.fillCoarse]) else (UG1, [])
  ((p1.1, p2.1), p1.2 ++ [RestrictCall.avgDownCall] ++ p2.2)

/-- Constants hard-coded in rns_sdc_build_level: base node count and temporal
refinement ratio. -/
def nnodes0 : Nat := 3

def trat : Nat := 2

/-- The structural content of an sdc_sweeper as SDCAmr uses it: the node count
of its node set, the AmrLevel attached as nset->ctx and the encapsulation
attached as nset->encap (both identified by level index). -/
structure Sweeper where
  nnodes : Nat
  ctx : Nat
  encap : Nat
deriving DecidableEq, Repr

def noSweeper : Sweeper := { nnodes := 0, ctx := 0, encap := 0 }

/-- rns_sdc_build_level: node count 1 + (nnodes0 - 1) * trat^lev (the source
computes pow on doubles and truncates to int; exact for these operands),
Gauss-Lobatto nodes, an imex sweeper.  The ctx and encap attachments are made
afterwards by rebuild_mlsdc. -/
def rns_sdc_build_level (lev : Nat) : Sweeper :=
  { nnodes := 1 + (nnodes0 - 1) * trat ^ lev, ctx := 0, encap := 0 }

/-- build_encap(lev) builds the encapsulation for the BoxArray of level lev;
structurally identified by its level. -/
def build_encap (lev : Nat) : Nat := lev

/-- The mutable controller state of SDCAmr that the embedded operations touch:
AMR shape, configuration, the sweeper array (index 0..max_level, NULL
modelled as none), the levels registered with the sdc_mg orchestrator, the
per-registered-level node storage Q, the mesh hierarchy new-data fields (per
level, per state descriptor) and the per-level step counters. -/
structure AmrState where
  max_level : Nat
  finest_level : Nat
  max_iters : Nat
  dt : Int
  sweepers : List (Option Sweeper)
  mg_levels : List Sweeper
  qnodes : List (List MultiFab)
  mesh : List (List MultiFab)
  level_steps : List Nat
  level_count : List Nat
deriving DecidableEq, Repr

/-- The sweeper for level lev as rebuild_mlsdc installs it: built by
rns_sdc_build_level, then nset->ctx set to the level and nset->encap to the
encapsulation built for that level. -/
def attachSweeper (lev : Nat) : Sweeper :=
  { rns_sdc_build_level lev with ctx := lev, encap := build_encap lev }

/-- SDCAmr::rebuild_mlsdc: reset the mg and destroy every existing sweeper and
encap (making the result independent of the previous sweeper contents), then
for lev = 0..finest_level build a fresh sweeper, attach its context and encap
and register it with the orchestrator; sdc_mg_setup and sdc_mg_allocate give
every registered level fresh node storage of its node count. -/
def rebuild_mlsdc (s : AmrState) : AmrState :=
  { s with
    sweepers := (List.range (s.max_level + 1)).map
      (fun lev => if lev ≤ s.finest_level then some (attachSweeper lev) else none),
    mg_levels := (List.range (s.finest_level + 1)).map attachSweeper,
    qnodes := (List.range (s.finest_level + 1)).map
      (fun lev => List.replicate (attachSweeper lev).nnodes defaultFab) }

/-- Behaviour of the external collaborators during one operation: the Amr base
class regrid policy and effect, RNS::computeNewDt, RNS::fill_boundary and the
SDCLib spread and sweep node updates. -/
structure Oracle where
  okToRegrid : Nat → Bool
  regridFinest : Nat → Nat → Nat
  regridMesh : Nat → List (List MultiFab) → List (List MultiFab)
  computeNewDt : Nat → Int → Int
  fill_boundary : FillMode → MultiFab → MultiFab
  mgSpread : List (List MultiFab) → List (List MultiFab)
  mgSweep : Nat → List (List MultiFab) → List (List MultiFab)

/-- Observable events of a controller run, in program order. -/
inductive Event
| rebuild
| meshRegrid (lbase : Nat)
| seedCopy (lev : Nat)
| spread
| sweep (lastSweep : Bool)
| finalCopy (lev : Nat)
deriving DecidableEq, Repr

def isMeshRegrid : Event → Bool
  | Event.meshRegrid _ => true
  | _ => false

def isSeedCopy : Event → Bool
  | Event.seedCopy _ => true
  | _ => false

def isSweepEvent : Event → Bool
  | Event.sweep _ => true
  | _ => false

/-- Amr::regrid (external mesh provider): may change finest_level and the
per-level field layout and contents. -/
def amr_base_regrid (o : Oracle) (lbase : Nat) (s : AmrState) : AmrState :=
  { s with finest_level := o.regridFinest lbase s.finest_level,
           mesh := o.regridMesh lbase s.mesh }

/-- SDCAmr::regrid: the base class mesh regrid, then an unconditional
rebuild_mlsdc.  The trace records the mesh shape change followed by the
rebuild. -/
def sdcamr_regrid (o : Oracle) (lbase : Nat) (s : AmrState) : AmrState × List Event :=
  (rebuild_mlsdc (amr_base_regrid o lbase s),
   [Event.meshRegrid lbase, Event.rebuild])

/-- The level_count resets of the regrid branch of timeStep:
for k = i..finest_level, level_count[k] = 0. -/
def resetCounts (i fin : Nat) : Nat → List Nat → List Nat
  | _, [] => []
  | k, c :: cs => (if i ≤ k ∧ k ≤ fin then 0 else c) :: resetCounts i fin (k + 1) cs

/-- One fired regrid inside the timeStep regrid loop: regrid(i, time), then
computeNewDt on level 0, then reset level_count[k] for k = i..finest_level. -/
def regridAt (o : Oracle) (iN : Nat) (s : AmrState) : AmrState × List Event :=
  let r := sdcamr_regrid o iN s
  ({ r.1 with dt := o.computeNewDt r.1.finest_level r.1.dt,
              level_count := resetCounts iN r.1.finest_level 0 r.1.level_count },
   r.2)

/-- The regrid loop of timeStep.  The index i and the loop bound lev_top are C
ints (lev_top is min(finest_level, max_level - 1), which is -1 when
max_level = 0, so the loop does not run then); lev_top is lowered when a
regrid removed levels.  The fuel argument bounds the iteration count; timeStep
passes max_level + 1, which is never exhausted since i strictly increases and
lev_top stays at most max_level - 1. -/
def regridLoop (o : Oracle) : Nat → Int → Int → AmrState → AmrState × List Event
  | 0, _, _, s => (s, [])
  | fuel + 1, i, levTop, s =>
    if i ≤ levTop then
      let oldFinest := s.finest_level
      let p := if o.okToRegrid i.toNat then regridAt o i.toNat s else (s, [])
      let levTop2 := if oldFinest > p.1.finest_level
                     then min (p.1.finest_level : Int) ((p.1.max_level : Int) - 1)
                     else levTop
      let q := regridLoop o fuel (i + 1) levTop2 p.1
      (q.1, p.2 ++ q.2)
    else (s, [])

/-- The lazy first-use rebuild at the top of timeStep:
if (sweepers[0] == NULL) rebuild_mlsdc(). -/
def initPhase (s : AmrState) : AmrState × List Event :=
  if (s.sweepers.getD 0 none).isNone then (rebuild_mlsdc s, [Event.rebuild])
  else (s, [])

/-- Everything timeStep does before the seeding copies: the lazy rebuild and
the regrid loop from level 0 up to min(finest_level, max_level - 1). -/
def preSeed (o : Oracle) (s : AmrState) : AmrState × List Event :=
  let a := initPhase s
  let b := regridLoop o (a.1.max_level + 1) 0
             (min (a.1.finest_level : Int) ((a.1.max_level : Int) - 1)) a.1
  (b.1, a.2 ++ b.2)

/-- The fill mode timeStep selects while seeding level lev:
(lev == 0) ? RNS::use_FillBoundary : RNS::use_FillCoarsePatch. -/
def fillModeFor (lev : Nat) : FillMode :=
  if lev = 0 then FillMode.use_FillBoundary else FillMode.use_FillCoarsePatch

/-- The inner state-descriptor loop of the seeding phase at one level: each
new-data field is boundary-filled in place, then copied (valid and ghost
cells) into Q[0] of that level; every iteration overwrites the same Q[0], so
the accumulator ends as the last filled field (or stays at its start value
when there are no state descriptors). -/
def seedStates (o : Oracle) (mode : FillMode) : List MultiFab → MultiFab → List MultiFab × MultiFab
  | [], q0 => ([], q0)
  | u :: us, _q0 =>
    let u2 := o.fill_boundary mode u
    let r := seedStates o mode us u2
    (u2 :: r.1, r.2)

/-- The seeding loop of timeStep over levels lev, lev+1, ... (rem levels):
fill and copy every state descriptor of the level, writing the filled fields
back into the mesh hierarchy and the last copy into Q[0] of the level. -/
def seedLevels (o : Oracle) : Nat → Nat → AmrState → AmrState × List Event
  | 0, _, s => (s, [])
  | rem + 1, lev, s =>
    let states := s.mesh.getD lev []
    let q := s.qnodes.getD lev []
    let r := seedStates o (fillModeFor lev) states (q.getD 0 defaultFab)
    let s2 := { s with mesh := s.mesh.set lev r.1,
                       qnodes := s.qnodes.set lev (q.set 0 r.2) }
    let t := seedLevels o rem (lev + 1) s2
    (t.1, states.map (fun _ => Event.seedCopy lev) ++ t.2)

/-- The seeding phase of timeStep: levels 0..finest_level. -/
def seedingPhase (o : Oracle) (s : AmrState) : AmrState × List Event :=
  seedLevels o (s.finest_level + 1) 0 s

/-- The sweep loop: for k = 0..max_iters-1 run sdc_mg_sweep, passing
SDC_MG_LAST_SWEEP exactly when k == max_iters - 1. -/
def sweepLoop (o : Oracle) (maxIters : Nat) : Nat → Nat → List (List MultiFab) → List (List MultiFab) × List Event
  | 0, _, q => (q, [])
  | rem + 1, k, q =>
    let q2 := o.mgSweep k q
    let r := sweepLoop o maxIters rem (k + 1) q2
    (r.1, Event.sweep (decide (k = maxIters - 1)) :: r.2)

/-- The spread and the fixed-count sweep iteration of timeStep. -/
def spreadSweepPhase (o : Oracle) (s : AmrState) : AmrState × List Event :=
  let q1 := o.mgSpread s.qnodes
  let r := sweepLoop o s.max_iters s.max_iters 0 q1
  ({ s with qnodes := r.1 }, Event.spread :: r.2)

/-- The finalizing loop of timeStep over levels lev, lev+1, ... (rem levels):
for every state descriptor of the level, copy Q[nnodes - 1] of the level
(valid and ghost cells) into the new-data slot. -/
def finalLevels : Nat → Nat → AmrState → AmrState × List Event
  | 0, _, s => (s, [])
  | rem + 1, lev, s =>
    let nn := (s.mg_levels.getD lev noSweeper).nnodes
    let uend := (s.qnodes.getD lev []).getD (nn - 1) defaultFab
    let states := s.mesh.getD lev []
    let s2 := { s with mesh := s.mesh.set lev (states.map (fun _ => uend)) }
    let t := finalLevels rem (lev + 1) s2
    (t.1, states.map (fun _ => Event.finalCopy lev) ++ t.2)

/-- The finalizing phase of timeStep: levels 0..finest_level. -/
def finalizePhase (s : AmrState) : AmrState × List Event :=
  finalLevels (s.finest_level + 1) 0 s

/-- The counter updates at the end of timeStep:
level_steps[level]++ and level_count[level]++ with level == 0 (the entry
assertion BL_ASSERT(level == 0) pins the argument). -/
def bumpCounters (s : AmrState) : AmrState :=
  { s with level_steps := s.level_steps.set 0 (s.level_steps.getD 0 0 + 1),
           level_count := s.level_count.set 0 (s.level_count.getD 0 0 + 1) }

/-- SDCAmr::timeStep at level 0 (asserted in the source): lazy rebuild and
regrid loop, seeding, spread, max_iters sweeps, finalizing copies, counter
increments.  Returns the new controller state and the event trace. -/
def timeStep (o : Oracle) (s : AmrState) : AmrState × List Event :=
  let a := preSeed o s
  let b := seedingPhase o a.1
  let c := spreadSweepPhase o b.1
  let d := finalizePhase c.1
  (bumpCounters d.1, a.2 ++ b.2 ++ c.2 ++ d.2)

/-- One externally driven call: a Step (timeStep at level 0) or a Regrid
(SDCAmr::regrid at a base level), each with the external behaviour in force
during that call. -/
inductive Call
| step (o : Oracle)
| regridCall (o : Oracle) (lbase : Nat)

def runCall : Call → AmrState → AmrState × List Event
  | Call.step o, s => timeStep o s
  | Call.regridCall o lb, s => sdcamr_regrid o lb s

/-- Run a sequence of Step and Regrid calls, concatenating the traces. -/
def runCalls : List Call → AmrState → AmrState × List Event
  | [], s => (s, [])
  | c :: cs, s =>
    let p := runCall c s
    let q := runCalls cs p.1
    (q.1, p.2 ++ q.2)

/-- SDCAmr::SDCAmr: read max_iters (default 22) and max_trefs (default 3)
from the mlsdc parameter table; when max_level > 0, abort unless
blocking_factor(i) >= 4 for every i = 0..max_level. -/
def SDCAmr_construct (max_level : Nat) (blockingFactor : Nat → Int)
    (ppMaxIters ppMaxTrefs : Option Int) : Except String (Int × Int) :=
  let mi := ppMaxIters.getD 22
  let mt := ppMaxTrefs.getD 3
  if 0 < max_level then
    if (List.range (max_level + 1)).any (fun i => decide (blockingFactor i < 4)) then
      Except.error "For AMR runs, set blocking_factor to at least 4."
    else Except.ok (mi, mt)
  else Except.ok (mi, mt)

/-- A concrete external behaviour where no level is due for regridding and
every external operation leaves the data unchanged. -/
def quietOracle : Oracle :=
  { okToRegrid := fun _ => false,
    regridFinest := fun _ f => f,
    regridMesh := fun _ m => m,
    computeNewDt := fun _ d => d,
    fill_boundary := fun _ u => u,
    mgSpread := fun q => q,
    mgSweep := fun _ q => q }

/-- A concrete external behaviour where every queried level is due for
regridding; the mesh regrid keeps the current shape. -/
def eagerOracle : Oracle :=
  { quietOracle with okToRegrid := fun _ => true }

/-- A concrete two-level controller state with consistently sized storage:
max_level = 1, finest_level = 1, one state descriptor per level, node counts
3 and 5. -/
def twoLevelState : AmrState :=
  { max_level := 1,
    finest_level := 1,
    max_iters := 1,
    dt := 0,
    sweepers := [some (attachSweeper 0), some (attachSweeper 1)],
    mg_levels := [attachSweeper 0, attachSweeper 1],
    qnodes := [List.replicate 3 defaultFab, List.replicate 5 defaultFab],
    mesh := [[{ valid := 10, ghost := 11 }], [{ valid := 20, ghost := 21 }]],
    level_steps := [0, 0],
    level_count := [0, 0] }

/-- A single-level controller state whose only level carries two state
descriptors with distinct field contents. -/
def twoStateSeedState : AmrState :=
  { max_level := 0,
    finest_level := 0,
    max_iters := 1,
    dt := 0,
    sweepers := [some (attachSweeper 0)],
    mg_levels := [attachSweeper 0],
    qnodes := [List.replicate 3 defaultFab],
    mesh := [[{ valid := 0, ghost := 0 }, { valid := 1, ghost := 1 }]],
    level_steps := [0],
    level_count := [0] }

/-- Trace well-formedness for the regrid-rebuild coupling: every mesh shape
change is immediately followed by a rebuild (in particular none is last). -/
def regridsRebuilt : List Event → Bool
  | [] => true
  | [e] => !isMeshRegrid e
  | e :: e2 :: rest =>
    (!isMeshRegrid e || decide (e2 = Event.rebuild)) && regridsRebuilt (e2 :: rest)

theorem regridsRebuilt_append : ∀ t1 t2 : List Event,
    regridsRebuilt t1 = true → regridsRebuilt t2 = true →
    regridsRebuilt (t1 ++ t2) = true := by
  intro t1
  induction t1 with
  | nil => intro t2 _ h2; simpa using h2
  | cons e t1 ih =>
    intro t2 h1 h2
    cases t1 with
    | nil =>
      cases t2 with
      | nil => simpa using h1
      | cons f t2 =>
        simp only [regridsRebuilt] at h1
        show regridsRebuilt (e :: f :: t2) = true
        simp only [regridsRebuilt, Bool.and_eq_true, Bool.or_eq_true]
        exact ⟨Or.inl h1, h2⟩
    | cons e2 t1 =>
      simp only [regridsRebuilt, Bool.and_eq_true] at h1
      have := ih t2 h1.2 h2
      simp only [List.cons_append] at this ⊢
      simp only [regridsRebuilt, Bool.and_eq_true]
      exact ⟨h1.1, by simpa using this⟩

theorem regridsRebuilt_of_no_regrid : ∀ t : List Event,
    (∀ e ∈ t, isMeshRegrid e = false) → regridsRebuilt t = true := by
  intro t
  induction t with
  | nil => intro _; rfl
  | cons e t ih =>
    intro h
    cases t with
    | nil => simp [regridsRebuilt, h e (by simp)]
    | cons e2 t =>
      simp only [regridsRebuilt, Bool.and_eq_true]
      refine ⟨by simp [h e (by simp)], ?_⟩
      exact ih (fun f hf => h f (by simp [hf]))

theorem regridAt_frame (o : Oracle) (iN : Nat) (s : AmrState) :
    (regridAt o iN s).1.level_steps = s.level_steps
    ∧ (regridAt o iN s).1.max_level = s.max_level
    ∧ (regridAt o iN s).1.max_iters = s.max_iters :=
  ⟨rfl, rfl, rfl⟩

theorem regridLoop_trace (o : Oracle) : ∀ (fuel : Nat) (i levTop : Int) (s : AmrState),
    (∀ e ∈ (regridLoop o fuel i levTop s).2,
        e = Event.rebuild ∨ ∃ b, e = Event.meshRegrid b)
    ∧ ((Event.rebuild ∈ (regridLoop o fuel i levTop s).2)
        ↔ ∃ b, Event.meshRegrid b ∈ (regridLoop o fuel i levTop s).2)
    ∧ regridsRebuilt (regridLoop o fuel i levTop s).2 = true := by
  intro fuel
  induction fuel with
  | zero => intro i levTop s; simp [regridLoop, regridsRebuilt]
  | succ fuel ih =>
    intro i levTop s
    by_cases hle : i ≤ levTop
    · by_cases hok : o.okToRegrid i.toNat
      · have hm : ∀ t : AmrState × List Event,
            (if o.okToRegrid i.toNat then regridAt o i.toNat s else (s, [])) = regridAt o i.toNat s := by
          intro _; simp [hok]
        simp only [regridLoop, if_pos hle, hm ((s, []))]
        have htr : (regridAt o i.toNat s).2 = [Event.meshRegrid i.toNat, Event.rebuild] := rfl
        simp only [htr]
        set s1 := (regridAt o i.toNat s).1 with hs1
        set lt2 := if s.finest_level > s1.finest_level
                   then min (s1.finest_level : Int) ((s1.max_level : Int) - 1)
                   else levTop with hlt2
        obtain ⟨ihmem, ihiff, ihrr⟩ := ih (i + 1) lt2 s1
        refine ⟨?_, ?_, ?_⟩
        · intro e he
          simp only [List.cons_append, List.nil_append, List.mem_cons] at he
          rcases he with h | h | h
          · exact Or.inr ⟨i.toNat, h⟩
          · exact Or.inl h
          · exact ihmem e h
        · constructor
          · intro _; exact ⟨i.toNat, by simp⟩
          · intro _; simp
        · apply regridsRebuilt_append
          · rfl
          · exact ihrr
      · have hm : (if o.okToRegrid i.toNat then regridAt o i.toNat s else (s, [])) = (s, []) := by
          simp [hok]
        simp only [regridLoop, if_pos hle, hm]
        simp only [List.nil_append]
        exact ih (i + 1) _ s
    · simp [regridLoop, hle, regridsRebuilt]

theorem regridLoop_frame (o : Oracle) : ∀ (fuel : Nat) (i levTop : Int) (s : AmrState),
    (regridLoop o fuel i levTop s).1.level_steps = s.level_steps
    ∧ (regridLoop o fuel i levTop s).1.max_level = s.max_level
    ∧ (regridLoop o fuel i levTop s).1.max_iters = s.max_iters := by
  intro fuel
  induction fuel with
  | zero => intro i levTop s; exact ⟨rfl, rfl, rfl⟩
  | succ fuel ih =>
    intro i levTop s
    by_cases hle : i ≤ levTop
    · by_cases hok : o.okToRegrid i.toNat
      · have hm : (if o.okToRegrid i.toNat then regridAt o i.toNat s else (s, [])) = regridAt o i.toNat s := by
          simp [hok]
        simp only [regridLoop, if_pos hle, hm]
        obtain ⟨h1, h2, h3⟩ := ih (i + 1)
          (if s.finest_level > (regridAt o i.toNat s).1.finest_level
           then min ((regridAt o i.toNat s).1.finest_level : Int)
                    (((regridAt o i.toNat s).1.max_level : Int) - 1)
           else levTop) (regridAt o i.toNat s).1
        obtain ⟨f1, f2, f3⟩ := regridAt_frame o i.toNat s
        exact ⟨h1.trans f1, h2.trans f2, h3.trans f3⟩
      · have hm : (if o.okToRegrid i.toNat then regridAt o i.toNat s else (s, [])) = (s, []) := by
          simp [hok]
        simp only [regridLoop, if_pos hle, hm]
        exact ih (i + 1) _ s
    · simp [regridLoop, hle]

theorem initPhase_frame (s : AmrState) :
    (initPhase s).1.level_steps = s.level_steps
    ∧ (initPhase s).1.level_count = s.level_count
    ∧ (initPhase s).1.max_level = s.max_level
    ∧ (initPhase s).1.max_iters = s.max_iters := by
  simp only [initPhase]
  split
  · simp [rebuild_mlsdc]
  · simp

theorem initPhase_trace (s : AmrState) :
    (initPhase s).2 = [] ∨ (initPhase s).2 = [Event.rebuild] := by
  simp only [initPhase]
  split
  · exact Or.inr rfl
  · exact Or.inl rfl

theorem initPhase_of_isSome (s : AmrState)
    (h : (s.sweepers.getD 0 none).isSome = true) : initPhase s = (s, []) := by
  obtain ⟨sw, hsw⟩ := Option.isSome_iff_exists.mp h
  simp only [initPhase, hsw]
  simp

theorem preSeed_frame (o : Oracle) (s : AmrState) :
    (preSeed o s).1.level_steps = s.level_steps
    ∧ (preSeed o s).1.max_level = s.max_level
    ∧ (preSeed o s).1.max_iters = s.max_iters := by
  obtain ⟨i1, _, i3, i4⟩ := initPhase_frame s
  obtain ⟨r1, r2, r3⟩ := regridLoop_frame o ((initPhase s).1.max_level + 1) 0
    (min ((initPhase s).1.finest_level : Int) (((initPhase s).1.max_level : Int) - 1))
    (initPhase s).1
  exact ⟨r1.trans i1, r2.trans i3, r3.trans i4⟩

theorem preSeed_trace (o : Oracle) (s : AmrState) :
    (∀ e ∈ (preSeed o s).2, e = Event.rebuild ∨ ∃ b, e = Event.meshRegrid b)
    ∧ ((∃ b, Event.meshRegrid b ∈ (preSeed o s).2) → Event.rebuild ∈ (preSeed o s).2)
    ∧ ((s.sweepers.getD 0 none).isSome = true →
        (Event.rebuild ∈ (preSeed o s).2 → ∃ b, Event.meshRegrid b ∈ (preSeed o s).2))
    ∧ regridsRebuilt (preSeed o s).2 = true := by
  obtain ⟨m, iff2, rr⟩ := regridLoop_trace o ((initPhase s).1.max_level + 1) 0
    (min ((initPhase s).1.finest_level : Int) (((initPhase s).1.max_level : Int) - 1))
    (initPhase s).1
  have hsplit : (preSeed o s).2 = (initPhase s).2
      ++ (regridLoop o ((initPhase s).1.max_level + 1) 0
            (min ((initPhase s).1.finest_level : Int) (((initPhase s).1.max_level : Int) - 1))
            (initPhase s).1).2 := rfl
  refine ⟨?_, ?_, ?_, ?_⟩
  · intro e he
    rw [hsplit, List.mem_append] at he
    rcases he with h | h
    · rcases initPhase_trace s with ht | ht
      · rw [ht] at h; simp at h
      · rw [ht] at h; simp at h; exact Or.inl h
    · exact m e h
  · intro ⟨b, hb⟩
    rw [hsplit, List.mem_append] at hb ⊢
    rcases hb with h | h
    · rcases initPhase_trace s with ht | ht
      · rw [ht] at h; simp at h
      · rw [ht] at h; simp at h
    · exact Or.inr (iff2.mpr ⟨b, h⟩)
  · intro hs hr
    rw [initPhase_of_isSome s hs] at hsplit
    simp only [List.nil_append] at hsplit
    rw [hsplit] at hr ⊢
    rw [initPhase_of_isSome s hs] at iff2
    exact iff2.mp hr
  · rw [hsplit]
    apply regridsRebuilt_append
    · rcases initPhase_trace s with ht | ht <;> rw [ht] <;> rfl
    · exact rr

theorem seedStates_eq (o : Oracle) (mode : FillMode) : ∀ (us : List MultiFab) (q0 : MultiFab),
    seedStates o mode us q0
      = (us.map (o.fill_boundary mode),
         ((us.getLast?).map (o.fill_boundary mode)).getD q0) := by
  intro us
  induction us with
  | nil => intro q0; rfl
  | cons u us ih =>
    intro q0
    cases us with
    | nil => simp [seedStates, ih]
    | cons v vs =>
      have hrec : seedStates o mode (u :: v :: vs) q0
          = (o.fill_boundary mode u :: (seedStates o mode (v :: vs) (o.fill_boundary mode u)).1,
             (seedStates o mode (v :: vs) (o.fill_boundary mode u)).2) := rfl
      rw [hrec, ih (o.fill_boundary mode u)]
      cases hl : (v :: vs).getLast? with
      | none => simp at hl
      | some l => simp [List.getLast?_cons_cons, hl]

theorem seedLevels_mesh (o : Oracle) : ∀ (rem lev j : Nat) (s : AmrState),
    (seedLevels o rem lev s).1.mesh[j]?
      = if lev ≤ j ∧ j < lev + rem
        then (s.mesh[j]?).map (List.map (o.fill_boundary (fillModeFor j)))
        else s.mesh[j]? := by
  intro rem
  induction rem with
  | zero =>
    intro lev j s
    show s.mesh[j]? = _
    rw [if_neg (by omega : ¬ (lev ≤ j ∧ j < lev + 0))]
  | succ rem ih =>
    intro lev j s
    simp only [seedLevels]
    rw [ih (lev + 1) j]
    by_cases hj : j = lev
    · subst hj
      have h1 : ¬ (j + 1 ≤ j ∧ j < j + 1 + rem) := by omega
      have h2 : j ≤ j ∧ j < j + (rem + 1) := by omega
      rw [if_neg h1, if_pos h2]
      show (s.mesh.set j (seedStates o (fillModeFor j) (s.mesh.getD j [])
        ((s.qnodes.getD j []).getD 0 defaultFab)).1)[j]? = _
      rw [seedStates_eq, List.getElem?_set_self']
      cases hm : s.mesh[j]? with
      | none => simp
      | some us => simp [List.getD_eq_getElem?_getD, hm]
    · have hmesh : ((s.mesh.set lev (seedStates o (fillModeFor lev) (s.mesh.getD lev [])
          ((s.qnodes.getD lev []).getD 0 defaultFab)).1))[j]?
          = s.mesh[j]? := List.getElem?_set_ne (fun h => hj h.symm)
      show (if lev + 1 ≤ j ∧ j < lev + 1 + rem
            then ((s.mesh.set lev _)[j]?).map (List.map (o.fill_boundary (fillModeFor j)))
            else (s.mesh.set lev _)[j]?) = _
      rw [hmesh]
      by_cases hc : lev ≤ j ∧ j < lev + (rem + 1)
      · rw [if_pos (by omega : lev + 1 ≤ j ∧ j < lev + 1 + rem), if_pos hc]
      · rw [if_neg (by omega : ¬ (lev + 1 ≤ j ∧ j < lev + 1 + rem)), if_neg hc]

theorem seedLevels_qnodes (o : Oracle) : ∀ (rem lev j : Nat) (s : AmrState),
    (seedLevels o rem lev s).1.qnodes[j]?
      = if lev ≤ j ∧ j < lev + rem
        then (s.qnodes[j]?).map (fun ql => ql.set 0
            ((((s.mesh.getD j []).getLast?).map (o.fill_boundary (fillModeFor j))).getD
              (ql.getD 0 defaultFab)))
        else s.qnodes[j]? := by
  intro rem
  induction rem with
  | zero =>
    intro lev j s
    show s.qnodes[j]? = _
    rw [if_neg (by omega : ¬ (lev ≤ j ∧ j < lev + 0))]
  | succ rem ih =>
    intro lev j s
    simp only [seedLevels]
    rw [ih (lev + 1) j]
    by_cases hj : j = lev
    · subst hj
      have h1 : ¬ (j + 1 ≤ j ∧ j < j + 1 + rem) := by omega
      have h2 : j ≤ j ∧ j < j + (rem + 1) := by omega
      rw [if_neg h1, if_pos h2]
      show (s.qnodes.set j ((s.qnodes.getD j []).set 0
        (seedStates o (fillModeFor j) (s.mesh.getD j [])
          ((s.qnodes.getD j []).getD 0 defaultFab)).2))[j]? = _
      rw [seedStates_eq, List.getElem?_set_self']
      cases hq : s.qnodes[j]? with
      | none => simp
      | some ql => simp [List.getD_eq_getElem?_getD, hq]
    · have hq : ((s.qnodes.set lev ((s.qnodes.getD lev []).set 0
          (seedStates o (fillModeFor lev) (s.mesh.getD lev [])
            ((s.qnodes.getD lev []).getD 0 defaultFab)).2)))[j]?
          = s.qnodes[j]? := List.getElem?_set_ne (fun h => hj h.symm)
      have hm : ((s.mesh.set lev (seedStates o (fillModeFor lev) (s.mesh.getD lev [])
          ((s.qnodes.getD lev []).getD 0 defaultFab)).1)).getD j []
          = s.mesh.getD j [] := by
        rw [List.getD_eq_getElem?_getD, List.getElem?_set_ne (fun h => hj h.symm),
          ← List.getD_eq_getElem?_getD]
      rw [hq, hm]
      by_cases hc : lev ≤ j ∧ j < lev + (rem + 1)
      · rw [if_pos (by omega : lev + 1 ≤ j ∧ j < lev + 1 + rem), if_pos hc]
      · rw [if_neg (by omega : ¬ (lev + 1 ≤ j ∧ j < lev + 1 + rem)), if_neg hc]

theorem seedLevels_frame (o : Oracle) : ∀ (rem lev : Nat) (s : AmrState),
    (seedLevels o rem lev s).1.finest_level = s.finest_level
    ∧ (seedLevels o rem lev s).1.max_level = s.max_level
    ∧ (seedLevels o rem lev s).1.max_iters = s.max_iters
    ∧ (seedLevels o rem lev s).1.level_steps = s.level_steps
    ∧ (seedLevels o rem lev s).1.level_count = s.level_count
    ∧ (seedLevels o rem lev s).1.mg_levels = s.mg_levels
    ∧ (seedLevels o rem lev s).1.sweepers = s.sweepers := by
  intro rem
  induction rem with
  | zero => intro lev s; exact ⟨rfl, rfl, rfl, rfl, rfl, rfl, rfl⟩
  | succ rem ih =>
    intro lev s
    exact ih (lev + 1) _

theorem seedLevels_trace (o : Oracle) : ∀ (rem lev : Nat) (s : AmrState),
    ∀ e ∈ (seedLevels o rem lev s).2, ∃ l, e = Event.seedCopy l := by
  intro rem
  induction rem with
  | zero => intro lev s e he; simp [seedLevels] at he
  | succ rem ih =>
    intro lev s e he
    simp only [seedLevels, List.mem_append] at he
    rcases he with h | h
    · rw [List.mem_map] at h
      obtain ⟨u, _, hu⟩ := h
      exact ⟨lev, hu.symm⟩
    · exact ih (lev + 1) _ e h

theorem sweepLoop_trace (o : Oracle) (mi : Nat) : ∀ (rem k : Nat) (q : List (List MultiFab)),
    (sweepLoop o mi rem k q).2
      = (List.range' k rem).map (fun j => Event.sweep (decide (j = mi - 1))) := by
  intro rem
  induction rem with
  | zero => intro k q; rfl
  | succ rem ih =>
    intro k q
    have hr : List.range' k (rem + 1) = k :: List.range' (k + 1) rem := List.range'_succ k rem 1
    rw [hr]
    show Event.sweep (decide (k = mi - 1))
        :: (sweepLoop o mi rem (k + 1) (o.mgSweep k q)).2 = _
    rw [ih (k + 1) (o.mgSweep k q)]
    rfl

theorem spreadSweepPhase_frame (o : Oracle) (s : AmrState) :
    (spreadSweepPhase o s).1.mesh = s.mesh
    ∧ (spreadSweepPhase o s).1.level_steps = s.level_steps
    ∧ (spreadSweepPhase o s).1.level_count = s.level_count
    ∧ (spreadSweepPhase o s).1.finest_level = s.finest_level
    ∧ (spreadSweepPhase o s).1.mg_levels = s.mg_levels
    ∧ (spreadSweepPhase o s).1.max_iters = s.max_iters :=
  ⟨rfl, rfl, rfl, rfl, rfl, rfl⟩

theorem spreadSweepPhase_trace (o : Oracle) (s : AmrState) :
    (spreadSweepPhase o s).2
      = Event.spread :: (List.range s.max_iters).map
          (fun j => Event.sweep (decide (j = s.max_iters - 1))) := by
  show Event.spread :: (sweepLoop o s.max_iters s.max_iters 0 (o.mgSpread s.qnodes)).2 = _
  rw [sweepLoop_trace, List.range_eq_range']

theorem finalLevels_mesh : ∀ (rem lev j : Nat) (s : AmrState),
    (finalLevels rem lev s).1.mesh[j]?
      = if lev ≤ j ∧ j < lev + rem
        then (s.mesh[j]?).map (fun sts => sts.map (fun _ =>
          (s.qnodes.getD j []).getD ((s.mg_levels.getD j noSweeper).nnodes - 1) defaultFab))
        else s.mesh[j]? := by
  intro rem
  induction rem with
  | zero =>
    intro lev j s
    show s.mesh[j]? = _
    rw [if_neg (by omega : ¬ (lev ≤ j ∧ j < lev + 0))]
  | succ rem ih =>
    intro lev j s
    simp only [finalLevels]
    rw [ih (lev + 1) j]
    by_cases hj : j = lev
    · subst hj
      have h1 : ¬ (j + 1 ≤ j ∧ j < j + 1 + rem) := by omega
      have h2 : j ≤ j ∧ j < j + (rem + 1) := by omega
      rw [if_neg h1, if_pos h2]
      show (s.mesh.set j ((s.mesh.getD j []).map (fun _ =>
        (s.qnodes.getD j []).getD ((s.mg_levels.getD j noSweeper).nnodes - 1) defaultFab)))[j]?
          = _
      rw [List.getElem?_set_self']
      cases hm : s.mesh[j]? with
      | none => simp
      | some us => simp [List.getD_eq_getElem?_getD, hm]
    · have hmesh : (s.mesh.set lev ((s.mesh.getD lev []).map (fun _ =>
          (s.qnodes.getD lev []).getD ((s.mg_levels.getD lev noSweeper).nnodes - 1)
            defaultFab)))[j]?
          = s.mesh[j]? := List.getElem?_set_ne (fun h => hj h.symm)
      rw [hmesh]
      by_cases hc : lev ≤ j ∧ j < lev + (rem + 1)
      · rw [if_pos (by omega : lev + 1 ≤ j ∧ j < lev + 1 + rem), if_pos hc]
      · rw [if_neg (by omega : ¬ (lev + 1 ≤ j ∧ j < lev + 1 + rem)), if_neg hc]

theorem finalLevels_frame : ∀ (rem lev : Nat) (s : AmrState),
    (finalLevels rem lev s).1.qnodes = s.qnodes
    ∧ (finalLevels rem lev s).1.level_steps = s.level_steps
    ∧ (finalLevels rem lev s).1.level_count = s.level_count
    ∧ (finalLevels rem lev s).1.finest_level = s.finest_level
    ∧ (finalLevels rem lev s).1.mg_levels = s.mg_levels := by
  intro rem
  induction rem with
  | zero => intro lev s; exact ⟨rfl, rfl, rfl, rfl, rfl⟩
  | succ rem ih =>
    intro lev s
    exact ih (lev + 1) _

theorem finalLevels_trace : ∀ (rem lev : Nat) (s : AmrState),
    ∀ e ∈ (finalLevels rem lev s).2, ∃ l, e = Event.finalCopy l := by
  intro rem
  induction rem with
  | zero => intro lev s e he; simp [finalLevels] at he
  | succ rem ih =>
    intro lev s e he
    simp only [finalLevels, List.mem_append] at he
    rcases he with h | h
    · rw [List.mem_map] at h
      obtain ⟨u, _, hu⟩ := h
      exact ⟨lev, hu.symm⟩
    · exact ih (lev + 1) _ e h

theorem seedingPhase_mesh (o : Oracle) (s : AmrState) (j : Nat) :
    (seedingPhase o s).1.mesh[j]?
      = if j ≤ s.finest_level
        then (s.mesh[j]?).map (List.map (o.fill_boundary (fillModeFor j)))
        else s.mesh[j]? := by
  have h := seedLevels_mesh o (s.finest_level + 1) 0 j s
  by_cases hj : j ≤ s.finest_level
  · rw [if_pos hj]
    rw [if_pos (by omega : 0 ≤ j ∧ j < 0 + (s.finest_level + 1))] at h
    exact h
  · rw [if_neg hj]
    rw [if_neg (by omega : ¬ (0 ≤ j ∧ j < 0 + (s.finest_level + 1)))] at h
    exact h

theorem seedingPhase_qnodes (o : Oracle) (s : AmrState) (j : Nat) :
    (seedingPhase o s).1.qnodes[j]?
      = if j ≤ s.finest_level
        then (s.qnodes[j]?).map (fun ql => ql.set 0
            ((((s.mesh.getD j []).getLast?).map (o.fill_boundary (fillModeFor j))).getD
              (ql.getD 0 defaultFab)))
        else s.qnodes[j]? := by
  have h := seedLevels_qnodes o (s.finest_level + 1) 0 j s
  by_cases hj : j ≤ s.finest_level
  · rw [if_pos hj]
    rw [if_pos (by omega : 0 ≤ j ∧ j < 0 + (s.finest_level + 1))] at h
    exact h
  · rw [if_neg hj]
    rw [if_neg (by omega : ¬ (0 ≤ j ∧ j < 0 + (s.finest_level + 1)))] at h
    exact h

theorem finalizePhase_mesh (s : AmrState) (j : Nat) :
    (finalizePhase s).1.mesh[j]?
      = if j ≤ s.finest_level
        then (s.mesh[j]?).map (fun sts => sts.map (fun _ =>
          (s.qnodes.getD j []).getD ((s.mg_levels.getD j noSweeper).nnodes - 1) defaultFab))
        else s.mesh[j]? := by
  have h := finalLevels_mesh (s.finest_level + 1) 0 j s
  by_cases hj : j ≤ s.finest_level
  · rw [if_pos hj]
    rw [if_pos (by omega : 0 ≤ j ∧ j < 0 + (s.finest_level + 1))] at h
    exact h
  · rw [if_neg hj]
    rw [if_neg (by omega : ¬ (0 ≤ j ∧ j < 0 + (s.finest_level + 1)))] at h
    exact h

/-- C2: the node count built for level k follows the geometric formula
1 + (n0 - 1) * r^k with n0 = nnodes0 = 3 and r = trat = 2, for every level k;
and after a rebuild, the sweeper registered with the orchestrator for each
level k up to finest_level carries exactly that node count. -/
theorem claim_C2_node_count_formula :
    (∀ k : Nat, (rns_sdc_build_level k).nnodes = 1 + (nnodes0 - 1) * trat ^ k)
    ∧ (∀ (s : AmrState) (k : Nat), k ≤ s.finest_level →
        (rebuild_mlsdc s).mg_levels[k]? = some (attachSweeper k)
        ∧ (attachSweeper k).nnodes = 1 + (nnodes0 - 1) * trat ^ k) := by
  constructor
  · intro k; rfl
  · intro s k hk
    constructor
    · show ((List.range (s.finest_level + 1)).map attachSweeper)[k]? = _
      rw [List.getElem?_map, List.getElem?_range (by omega)]
      rfl
    · rfl

theorem claim_C2_witness :
    (1 ≤ twoLevelState.finest_level
      ∧ (rebuild_mlsdc twoLevelState).mg_levels[1]? = some (attachSweeper 1))
    ∧ (attachSweeper 1).nnodes = 5 :=
  ⟨⟨by decide, (claim_C2_node_count_formula.2 twoLevelState 1 (by decide)).1⟩, by decide⟩

/-- C3: the restriction transfer boundary-fills the fine field before the
average-down and the coarse field after it exactly when the carried state is a
solution (SDC_SOLUTION); with a correction-type state no fill is made; the
average-down itself happens for every kind. -/
theorem claim_C3_restrict_fill_iff_solution :
    ∀ {α : Type} (env : RestrictEnv α) (kind : sdc_kind) (UF UG : α),
    ((mlsdc_amr_restrict env kind UF UG).2
      = if kind = sdc_kind.SDC_SOLUTION
        then [RestrictCall.fillFine, RestrictCall.avgDownCall, RestrictCall.fillCoarse]
        else [RestrictCall.avgDownCall])
    ∧ ((mlsdc_amr_restrict env kind UF UG).1
      = if kind = sdc_kind.SDC_SOLUTION
        then (env.fillF UF, env.fillG (env.avgDown UG (env.fillF UF)))
        else (UF, env.avgDown UG UF))
    ∧ RestrictCall.avgDownCall ∈ (mlsdc_amr_restrict env kind UF UG).2
    ∧ ((RestrictCall.fillFine ∈ (mlsdc_amr_restrict env kind UF UG).2
        ∨ RestrictCall.fillCoarse ∈ (mlsdc_amr_restrict env kind UF UG).2)
       ↔ kind = sdc_kind.SDC_SOLUTION) := by
  intro α env kind UF UG
  cases kind <;> simp [mlsdc_amr_restrict]

/-- C7: construction aborts with the blocking-factor configuration error
exactly when max_level > 0 and some level 0..max_level has blocking factor
below 4; with max_level = 0 the blocking factor is never checked. -/
theorem claim_C7_blocking_factor_abort :
    ∀ (max_level : Nat) (bf : Nat → Int) (q1 q2 : Option Int),
    (∃ msg, SDCAmr_construct max_level bf q1 q2 = Except.error msg)
      ↔ (0 < max_level ∧ ∃ i, i ≤ max_level ∧ bf i < 4) := by
  intro ml bf q1 q2
  by_cases hml : 0 < ml
  · by_cases hany : (List.range (ml + 1)).any (fun i => decide (bf i < 4)) = true
    · rw [List.any_eq_true] at hany
      obtain ⟨i, hi, hbf⟩ := hany
      rw [List.mem_range] at hi
      constructor
      · intro _
        exact ⟨hml, i, by omega, by simpa using hbf⟩
      · intro _
        refine ⟨"For AMR runs, set blocking_factor to at least 4.", ?_⟩
        simp only [SDCAmr_construct, if_pos hml]
        rw [if_pos]
        rw [List.any_eq_true]
        exact ⟨i, List.mem_range.mpr (by omega), hbf⟩
    · constructor
      · intro ⟨msg, hmsg⟩
        exfalso
        simp only [SDCAmr_construct, if_pos hml] at hmsg
        rw [if_neg hany] at hmsg
        exact Except.noConfusion hmsg
      · intro ⟨_, i, hi, hbf⟩
        exfalso
        apply hany
        rw [List.any_eq_true]
        exact ⟨i, List.mem_range.mpr (by omega), by simpa using hbf⟩
  · constructor
    · intro ⟨msg, hmsg⟩
      exfalso
      simp only [SDCAmr_construct, if_neg hml] at hmsg
      exact Except.noConfusion hmsg
    · intro ⟨h, _⟩
      exact absurd h hml

/-- C8: rebuild_mlsdc is idempotent: a second rebuild with no intervening
regrid (the state, in particular max_level, finest_level and the mesh, is
whatever the first rebuild left) produces an identical controller state, so
the same registered level count and per-level node counts, contexts and
encapsulation attachments. -/
theorem claim_C8_rebuild_idempotent :
    ∀ s : AmrState, rebuild_mlsdc (rebuild_mlsdc s) = rebuild_mlsdc s :=
  fun _ => rfl

theorem seedingPhase_frame (o : Oracle) (s : AmrState) :
    (seedingPhase o s).1.finest_level = s.finest_level
    ∧ (seedingPhase o s).1.max_level = s.max_level
    ∧ (seedingPhase o s).1.max_iters = s.max_iters
    ∧ (seedingPhase o s).1.level_steps = s.level_steps
    ∧ (seedingPhase o s).1.level_count = s.level_count
    ∧ (seedingPhase o s).1.mg_levels = s.mg_levels
    ∧ (seedingPhase o s).1.sweepers = s.sweepers :=
  seedLevels_frame o (s.finest_level + 1) 0 s

theorem finalizePhase_frame (s : AmrState) :
    (finalizePhase s).1.qnodes = s.qnodes
    ∧ (finalizePhase s).1.level_steps = s.level_steps
    ∧ (finalizePhase s).1.level_count = s.level_count
    ∧ (finalizePhase s).1.finest_level = s.finest_level
    ∧ (finalizePhase s).1.mg_levels = s.mg_levels :=
  finalLevels_frame (s.finest_level + 1) 0 s

/-- C9 counterexample: a two-level Step with no regrid leaves the level-1 step
and sub-step counters untouched, refuting that the counters are incremented
for every level of the hierarchy. -/
theorem claim_C9_counterexample :
    ¬ (∀ lev, lev ≤ (timeStep quietOracle twoLevelState).1.finest_level →
        (timeStep quietOracle twoLevelState).1.level_steps[lev]?
          = some (twoLevelState.level_steps.getD lev 0 + 1)
        ∧ (timeStep quietOracle twoLevelState).1.level_count[lev]?
          = some (twoLevelState.level_count.getD lev 0 + 1)) := by
  decide

/-- C9 amended: at the end of every Step the base level (level 0) step counter
and sub-step counter are incremented (the sub-step counter relative to its
value after the regrid phase, which may have reset it); the step counters of
all other levels are left exactly as they were. -/
theorem claim_C9_amended_base_counters (o : Oracle) (s : AmrState) :
    ((timeStep o s).1.level_steps = s.level_steps.set 0 (s.level_steps.getD 0 0 + 1))
    ∧ ((timeStep o s).1.level_count
        = ((preSeed o s).1.level_count).set 0 (((preSeed o s).1.level_count).getD 0 0 + 1))
    ∧ (∀ k, k ≠ 0 → (timeStep o s).1.level_steps[k]? = s.level_steps[k]?) := by
  have hsteps : (finalizePhase (spreadSweepPhase o
      (seedingPhase o (preSeed o s).1).1).1).1.level_steps = s.level_steps := by
    rw [(finalizePhase_frame _).2.1, (spreadSweepPhase_frame o _).2.1,
      (seedingPhase_frame o _).2.2.2.1, (preSeed_frame o s).1]
  have hcount : (finalizePhase (spreadSweepPhase o
      (seedingPhase o (preSeed o s).1).1).1).1.level_count = (preSeed o s).1.level_count := by
    rw [(finalizePhase_frame _).2.2.1, (spreadSweepPhase_frame o _).2.2.1,
      (seedingPhase_frame o _).2.2.2.2.1]
  have h1 : (timeStep o s).1.level_steps
      = s.level_steps.set 0 (s.level_steps.getD 0 0 + 1) := by
    show (bumpCounters _).level_steps = _
    simp only [bumpCounters]
    rw [hsteps]
  refine ⟨h1, ?_, ?_⟩
  · show (bumpCounters _).level_count = _
    simp only [bumpCounters]
    rw [hcount]
  · intro k hk
    rw [h1, List.getElem?_set_ne (fun h => hk h.symm)]

theorem claim_C9_witness :
    ((timeStep quietOracle twoLevelState).1.level_steps
        = twoLevelState.level_steps.set 0 (twoLevelState.level_steps.getD 0 0 + 1))
    ∧ (timeStep quietOracle twoLevelState).1.level_steps[1]?
        = twoLevelState.level_steps[1]? :=
  ⟨(claim_C9_amended_base_counters quietOracle twoLevelState).1,
   (claim_C9_amended_base_counters quietOracle twoLevelState).2.2 1 (by decide)⟩

/-- C4 counterexample: with two state descriptors on one level, every
descriptor is copied into the same Q[0], so after seeding Q[0] carries only
the last descriptor field and differs from the first; Q[0] does not equal
the pre-step solution field of every state descriptor. -/
theorem claim_C4_counterexample :
    ¬ (∀ st, st < (twoStateSeedState.mesh.getD 0 []).length →
        ((seedingPhase quietOracle twoStateSeedState).1.qnodes.getD 0 [])[0]?
          = some ((twoStateSeedState.mesh.getD 0 []).getD st defaultFab)) := by
  decide

/-- After seeding, node Q[0] of a level with nonempty node storage and at
least one state descriptor holds the boundary-filled last state descriptor
field of that level. -/
theorem seedingPhase_q0_fill_last (o : Oracle) (s : AmrState) (lev : Nat)
    (hlev : lev ≤ s.finest_level)
    (hq : 0 < (s.qnodes.getD lev []).length)
    (hm : 0 < (s.mesh.getD lev []).length) :
    ((seedingPhase o s).1.qnodes.getD lev [])[0]?
      = ((s.mesh.getD lev []).getLast?).map (o.fill_boundary (fillModeFor lev)) := by
  cases hqv : s.qnodes[lev]? with
  | none =>
    exfalso
    rw [List.getD_eq_getElem?_getD, hqv] at hq
    simp at hq
  | some ql =>
  cases hmv : s.mesh[lev]? with
  | none =>
    exfalso
    rw [List.getD_eq_getElem?_getD, hmv] at hm
    simp at hm
  | some us =>
    have hqd : s.qnodes.getD lev [] = ql := by
      rw [List.getD_eq_getElem?_getD, hqv]; rfl
    have hmd : s.mesh.getD lev [] = us := by
      rw [List.getD_eq_getElem?_getD, hmv]; rfl
    rw [hqd] at hq
    rw [hmd] at hm
    cases hlast : us.getLast? with
    | none =>
      exfalso
      rw [List.getLast?_eq_none_iff] at hlast
      rw [hlast] at hm
      simp at hm
    | some l =>
      have hqn : (seedingPhase o s).1.qnodes.getD lev []
          = ql.set 0 (o.fill_boundary (fillModeFor lev) l) := by
        rw [List.getD_eq_getElem?_getD, seedingPhase_qnodes, if_pos hlev, hqv, hmd, hlast]
        rfl
      rw [hqn, hmd, hlast]
      have h0 : ql[0]? = some (ql.get ⟨0, hq⟩) := by
        rw [List.getElem?_eq_getElem hq]
        rfl
      rw [List.getElem?_set_self', h0]
      rfl

/-- C4 amended: after the Seeding phase, for every level (with nonempty node
storage and at least one state descriptor), Q[0] equals the mesh hierarchy
new-data field of the last state descriptor of that level, exactly (the value
the seeding loop left in the hierarchy, an exact copy, not interpolated);
with a single state descriptor this is the unique solution field. -/
theorem claim_C4_amended_seed_exact_copy (o : Oracle) (s : AmrState) (lev : Nat)
    (hlev : lev ≤ s.finest_level)
    (hq : 0 < (s.qnodes.getD lev []).length)
    (hm : 0 < (s.mesh.getD lev []).length) :
    ((seedingPhase o s).1.qnodes.getD lev [])[0]?
      = ((seedingPhase o s).1.mesh.getD lev []).getLast? := by
  rw [seedingPhase_q0_fill_last o s lev hlev hq hm]
  cases hmv : s.mesh[lev]? with
  | none =>
    exfalso
    rw [List.getD_eq_getElem?_getD, hmv] at hm
    simp at hm
  | some us =>
    have hmd : s.mesh.getD lev [] = us := by
      rw [List.getD_eq_getElem?_getD, hmv]; rfl
    have hmn : (seedingPhase o s).1.mesh.getD lev []
        = us.map (o.fill_boundary (fillModeFor lev)) := by
      rw [List.getD_eq_getElem?_getD, seedingPhase_mesh, if_pos hlev, hmv]
      rfl
    rw [hmd, hmn, List.getLast?_map]

theorem claim_C4_witness :
    ((seedingPhase quietOracle twoLevelState).1.qnodes.getD 1 [])[0]?
      = ((seedingPhase quietOracle twoLevelState).1.mesh.getD 1 []).getLast? :=
  claim_C4_amended_seed_exact_copy quietOracle twoLevelState 1 (by decide) (by decide)
    (by decide)

/-- C5: after the Finalizing phase, for every level and every state
descriptor, the mesh hierarchy new-data slot equals that level Q[nnodes - 1]
exactly, where nnodes is the node count of the sweeper registered for the
level; and the mesh a Step returns is exactly the mesh its Finalizing phase
produced. -/
theorem claim_C5_finalize_copies_qend :
    (∀ (s : AmrState) (lev st : Nat),
      lev ≤ s.finest_level →
      st < (s.mesh.getD lev []).length →
      (s.mg_levels.getD lev noSweeper).nnodes - 1 < (s.qnodes.getD lev []).length →
      ((finalizePhase s).1.mesh.getD lev [])[st]?
        = (s.qnodes.getD lev [])[(s.mg_levels.getD lev noSweeper).nnodes - 1]?)
    ∧ (∀ (o : Oracle) (s : AmrState),
        (timeStep o s).1.mesh
          = (finalizePhase (spreadSweepPhase o (seedingPhase o (preSeed o s).1).1).1).1.mesh) := by
  constructor
  · intro s lev st hlev hst hnn
    cases hmv : s.mesh[lev]? with
    | none =>
      exfalso
      rw [List.getD_eq_getElem?_getD, hmv] at hst
      simp at hst
    | some us =>
      have hmd : s.mesh.getD lev [] = us := by
        rw [List.getD_eq_getElem?_getD, hmv]; rfl
      rw [hmd] at hst
      have hmn : (finalizePhase s).1.mesh.getD lev []
          = us.map (fun _ =>
              (s.qnodes.getD lev []).getD ((s.mg_levels.getD lev noSweeper).nnodes - 1)
                defaultFab) := by
        rw [List.getD_eq_getElem?_getD, finalizePhase_mesh, if_pos hlev, hmv]
        rfl
      rw [hmn, List.getElem?_map, List.getElem?_eq_getElem hst]
      rw [List.getD_eq_getElem?_getD, List.getElem?_eq_getElem hnn]
      rfl
  · intro o s
    rfl

theorem claim_C5_witness :
    (0 ≤ twoLevelState.finest_level
      ∧ 0 < (twoLevelState.mesh.getD 0 []).length
      ∧ (twoLevelState.mg_levels.getD 0 noSweeper).nnodes - 1
          < (twoLevelState.qnodes.getD 0 []).length)
    ∧ ((finalizePhase twoLevelState).1.mesh.getD 0 [])[0]?
        = (twoLevelState.qnodes.getD 0 [])[(twoLevelState.mg_levels.getD 0 noSweeper).nnodes - 1]? :=
  ⟨⟨by decide, by decide, by decide⟩,
   claim_C5_finalize_copies_qend.1 twoLevelState 0 0 (by decide) (by decide) (by decide)⟩

/-- C10: during seeding every state descriptor of level lev is boundary-filled
with use_FillBoundary at level 0 and use_FillCoarsePatch at finer levels, and
Q[0] then receives the post-fill field of the seeded (last) descriptor whole,
its ghost region included (at fine levels that ghost data is what the
coarse-patch interpolation fill produced). -/
theorem claim_C10_seed_fill_modes (o : Oracle) (s : AmrState) (lev st : Nat)
    (hlev : lev ≤ s.finest_level) :
    (fillModeFor 0 = FillMode.use_FillBoundary
      ∧ (0 < lev → fillModeFor lev = FillMode.use_FillCoarsePatch))
    ∧ ((seedingPhase o s).1.mesh.getD lev [])[st]?
        = ((s.mesh.getD lev [])[st]?).map (o.fill_boundary (fillModeFor lev))
    ∧ (0 < (s.qnodes.getD lev []).length → 0 < (s.mesh.getD lev []).length →
        ((seedingPhase o s).1.qnodes.getD lev [])[0]?
          = ((s.mesh.getD lev []).getLast?).map (o.fill_boundary (fillModeFor lev))
        ∧ (((seedingPhase o s).1.qnodes.getD lev [])[0]?).map MultiFab.ghost
          = ((s.mesh.getD lev []).getLast?).map
              (fun u => (o.fill_boundary (fillModeFor lev) u).ghost)) := by
  refine ⟨⟨rfl, ?_⟩, ?_, ?_⟩
  · intro hpos
    simp [fillModeFor, Nat.pos_iff_ne_zero.mp hpos]
  · cases hmv : s.mesh[lev]? with
    | none =>
      have hmd : s.mesh.getD lev [] = [] := by
        rw [List.getD_eq_getElem?_getD, hmv]; rfl
      have hmn : (seedingPhase o s).1.mesh.getD lev [] = [] := by
        rw [List.getD_eq_getElem?_getD, seedingPhase_mesh, if_pos hlev, hmv]; rfl
      rw [hmd, hmn]
      simp
    | some us =>
      have hmd : s.mesh.getD lev [] = us := by
        rw [List.getD_eq_getElem?_getD, hmv]; rfl
      have hmn : (seedingPhase o s).1.mesh.getD lev []
          = us.map (o.fill_boundary (fillModeFor lev)) := by
        rw [List.getD_eq_getElem?_getD, seedingPhase_mesh, if_pos hlev, hmv]; rfl
      rw [hmd, hmn, List.getElem?_map]
  · intro hq hm
    have hmain := seedingPhase_q0_fill_last o s lev hlev hq hm
    exact ⟨hmain, by rw [hmain, Option.map_map]; rfl⟩

theorem claim_C10_witness :
    fillModeFor 1 = FillMode.use_FillCoarsePatch
    ∧ ((seedingPhase quietOracle twoLevelState).1.mesh.getD 1 [])[0]?
        = ((twoLevelState.mesh.getD 1 [])[0]?).map (quietOracle.fill_boundary (fillModeFor 1))
    ∧ ((seedingPhase quietOracle twoLevelState).1.qnodes.getD 1 [])[0]?
        = ((twoLevelState.mesh.getD 1 []).getLast?).map
            (quietOracle.fill_boundary (fillModeFor 1)) :=
  ⟨(claim_C10_seed_fill_modes quietOracle twoLevelState 1 0 (by decide)).1.2 (by decide),
   (claim_C10_seed_fill_modes quietOracle twoLevelState 1 0 (by decide)).2.1,
   ((claim_C10_seed_fill_modes quietOracle twoLevelState 1 0 (by decide)).2.2
      (by decide) (by decide)).1⟩

theorem timeStep_trace_eq (o : Oracle) (s : AmrState) :
    (timeStep o s).2 = (preSeed o s).2
      ++ (seedingPhase o (preSeed o s).1).2
      ++ (spreadSweepPhase o (seedingPhase o (preSeed o s).1).1).2
      ++ (finalizePhase (spreadSweepPhase o (seedingPhase o (preSeed o s).1).1).1).2 := rfl

theorem seedingPhase_trace (o : Oracle) (s : AmrState) :
    ∀ e ∈ (seedingPhase o s).2, ∃ l, e = Event.seedCopy l :=
  seedLevels_trace o (s.finest_level + 1) 0 s

theorem finalizePhase_trace (s : AmrState) :
    ∀ e ∈ (finalizePhase s).2, ∃ l, e = Event.finalCopy l :=
  finalLevels_trace (s.finest_level + 1) 0 s

/-- C6: every Step performs exactly max_iters sweeps, whatever the external
behaviour (no residual-based early exit), and the last-sweep flag is passed
exactly on iteration max_iters - 1. -/
theorem claim_C6_fixed_sweep_count (o : Oracle) (s : AmrState) :
    (timeStep o s).2.filter isSweepEvent
      = (List.range s.max_iters).map (fun k => Event.sweep (decide (k = s.max_iters - 1))) := by
  rw [timeStep_trace_eq]
  rw [List.filter_append, List.filter_append, List.filter_append]
  have h1 : (preSeed o s).2.filter isSweepEvent = [] := by
    rw [List.filter_eq_nil_iff]
    intro e he
    rcases (preSeed_trace o s).1 e he with h | ⟨b, h⟩ <;> subst h <;> simp [isSweepEvent]
  have h2 : (seedingPhase o (preSeed o s).1).2.filter isSweepEvent = [] := by
    rw [List.filter_eq_nil_iff]
    intro e he
    obtain ⟨l, hl⟩ := seedingPhase_trace o _ e he
    subst hl
    simp [isSweepEvent]
  have h4 : (finalizePhase (spreadSweepPhase o
      (seedingPhase o (preSeed o s).1).1).1).2.filter isSweepEvent = [] := by
    rw [List.filter_eq_nil_iff]
    intro e he
    obtain ⟨l, hl⟩ := finalizePhase_trace _ e he
    subst hl
    simp [isSweepEvent]
  have hmi : (seedingPhase o (preSeed o s).1).1.max_iters = s.max_iters := by
    rw [(seedingPhase_frame o _).2.2.1, (preSeed_frame o s).2.2]
  have h3 : (spreadSweepPhase o (seedingPhase o (preSeed o s).1).1).2.filter isSweepEvent
      = (List.range s.max_iters).map (fun k => Event.sweep (decide (k = s.max_iters - 1))) := by
    rw [spreadSweepPhase_trace, hmi]
    rw [List.filter_cons_of_neg (by simp [isSweepEvent])]
    apply List.filter_eq_self.mpr
    intro a ha
    rw [List.mem_map] at ha
    obtain ⟨k, _, hk⟩ := ha
    subst hk
    rfl
  rw [h1, h2, h3, h4]
  simp

theorem spreadSweepPhase_no_regrid (o : Oracle) (s : AmrState) :
    ∀ e ∈ (spreadSweepPhase o s).2, isMeshRegrid e = false := by
  intro e he
  rw [spreadSweepPhase_trace] at he
  rcases List.mem_cons.mp he with h | h
  · subst h; rfl
  · rw [List.mem_map] at h
    obtain ⟨k, _, hk⟩ := h
    subst hk; rfl

theorem timeStep_regridsRebuilt (o : Oracle) (s : AmrState) :
    regridsRebuilt (timeStep o s).2 = true := by
  rw [timeStep_trace_eq]
  apply regridsRebuilt_append
  · apply regridsRebuilt_append
    · apply regridsRebuilt_append
      · exact (preSeed_trace o s).2.2.2
      · apply regridsRebuilt_of_no_regrid
        intro e he
        obtain ⟨l, hl⟩ := seedingPhase_trace o _ e he
        subst hl; rfl
    · apply regridsRebuilt_of_no_regrid
      exact spreadSweepPhase_no_regrid o _
  · apply regridsRebuilt_of_no_regrid
    intro e he
    obtain ⟨l, hl⟩ := finalizePhase_trace _ e he
    subst hl; rfl

theorem runCalls_regridsRebuilt : ∀ (cs : List Call) (s : AmrState),
    regridsRebuilt (runCalls cs s).2 = true := by
  intro cs
  induction cs with
  | nil => intro s; rfl
  | cons c cs ih =>
    intro s
    show regridsRebuilt ((runCall c s).2 ++ (runCalls cs (runCall c s).1).2) = true
    apply regridsRebuilt_append
    · cases c with
      | step o => exact timeStep_regridsRebuilt o s
      | regridCall o lb => simp [runCall, sdcamr_regrid, regridsRebuilt, isMeshRegrid]
    · exact ih _

/-- C1: (1) a Step whose trace contains a mesh shape change rebuilds before
any seeding copy: its trace splits into a prefix containing the rebuild and
free of seeding copies, followed by the rest; (2) a Step whose sweepers exist
and whose trace contains no mesh shape change performs no rebuild at all;
(3) Regrid performs the mesh regrid immediately followed by the
unconditional rebuild, and its result state is exactly the rebuilt post-regrid
state; (4) over any sequence of Step and Regrid calls, every mesh shape
change event is immediately followed by a rebuild event. -/
theorem claim_C1_regrid_rebuild_coupling :
    (∀ (o : Oracle) (s : AmrState), (timeStep o s).2.any isMeshRegrid = true →
      ∃ t1 t2, (timeStep o s).2 = t1 ++ t2 ∧ Event.rebuild ∈ t1
        ∧ ∀ e ∈ t1, isSeedCopy e = false)
    ∧ (∀ (o : Oracle) (s : AmrState), (s.sweepers.getD 0 none).isSome = true →
        (timeStep o s).2.any isMeshRegrid = false →
        Event.rebuild ∉ (timeStep o s).2)
    ∧ (∀ (o : Oracle) (lbase : Nat) (s : AmrState),
        (sdcamr_regrid o lbase s).2 = [Event.meshRegrid lbase, Event.rebuild]
        ∧ (sdcamr_regrid o lbase s).1 = rebuild_mlsdc (amr_base_regrid o lbase s))
    ∧ (∀ (cs : List Call) (s : AmrState), regridsRebuilt (runCalls cs s).2 = true) := by
  refine ⟨?_, ?_, ?_, ?_⟩
  · intro o s hany
    rw [List.any_eq_true] at hany
    obtain ⟨e, he, hmr⟩ := hany
    rw [timeStep_trace_eq, List.mem_append, List.mem_append, List.mem_append] at he
    have hea : e ∈ (preSeed o s).2 := by
      rcases he with ((h | h) | h) | h
      · exact h
      · exfalso
        obtain ⟨l, hl⟩ := seedingPhase_trace o _ e h
        subst hl; simp [isMeshRegrid] at hmr
      · exfalso
        have := spreadSweepPhase_no_regrid o _ e h
        rw [this] at hmr
        exact Bool.noConfusion hmr
      · exfalso
        obtain ⟨l, hl⟩ := finalizePhase_trace _ e h
        subst hl; simp [isMeshRegrid] at hmr
    have hb : ∃ b, Event.meshRegrid b ∈ (preSeed o s).2 := by
      rcases (preSeed_trace o s).1 e hea with h | ⟨b, h⟩
      · subst h; simp [isMeshRegrid] at hmr
      · subst h; exact ⟨_, hea⟩
    have hreb : Event.rebuild ∈ (preSeed o s).2 := (preSeed_trace o s).2.1 hb
    refine ⟨(preSeed o s).2,
      (seedingPhase o (preSeed o s).1).2
        ++ (spreadSweepPhase o (seedingPhase o (preSeed o s).1).1).2
        ++ (finalizePhase (spreadSweepPhase o (seedingPhase o (preSeed o s).1).1).1).2,
      ?_, hreb, ?_⟩
    · rw [timeStep_trace_eq]
      simp [List.append_assoc]
    · intro f hf
      rcases (preSeed_trace o s).1 f hf with h | ⟨b, h⟩ <;> subst h <;> rfl
  · intro o s hsome hnone hmem
    rw [timeStep_trace_eq, List.mem_append, List.mem_append, List.mem_append] at hmem
    rcases hmem with ((h | h) | h) | h
    · obtain ⟨b, hb⟩ := (preSeed_trace o s).2.2.1 hsome h
      rw [List.any_eq_false] at hnone
      apply hnone (Event.meshRegrid b)
      · rw [timeStep_trace_eq, List.mem_append, List.mem_append, List.mem_append]
        exact Or.inl (Or.inl (Or.inl hb))
      · rfl
    · obtain ⟨l, hl⟩ := seedingPhase_trace o _ _ h
      exact Event.noConfusion hl
    · have := spreadSweepPhase_no_regrid o _ _ h
      rw [spreadSweepPhase_trace] at h
      rcases List.mem_cons.mp h with h2 | h2
      · exact Event.noConfusion h2
      · rw [List.mem_map] at h2
        obtain ⟨k, _, hk⟩ := h2
        exact Event.noConfusion hk
    · obtain ⟨l, hl⟩ := finalizePhase_trace _ _ h
      exact Event.noConfusion hl
  · intro o lbase s
    exact ⟨rfl, rfl⟩
  · exact runCalls_regridsRebuilt

theorem claim_C1_witness :
    (∃ t1 t2, (timeStep eagerOracle twoLevelState).2 = t1 ++ t2
      ∧ Event.rebuild ∈ t1 ∧ ∀ e ∈ t1, isSeedCopy e = false)
    ∧ Event.rebuild ∉ (timeStep quietOracle twoLevelState).2 :=
  ⟨claim_C1_regrid_rebuild_coupling.1 eagerOracle twoLevelState (by decide),
   claim_C1_regrid_rebuild_coupling.2.1 quietOracle twoLevelState (by decide) (by decide)⟩
